import Mathlib

/-!
Shallow embedding of mcplates/von_mises_fisher.py: the Von Mises-Fisher
distribution on the sphere (mean direction given as (longitude, colatitude)
in degrees, concentration kappa), with its sampling pipeline (`random`) and
log-density (`logp`), plus the Euler rotation-matrix helper.

Floating-point numbers are modelled as real numbers.  numpy 3-vectors are
a `Vec3` record, 3x3 matrices a `Mat3` record, and `np.dot` is written out
componentwise.  `np.arctan2 y x` is modelled as `Complex.arg ⟨x, y⟩`
(both have range (-π, π] and send (0, 0) to 0).  The pymc3 `bound` helper
is modelled by mapping the masked entries to `none` (`none` stands for the
`-inf` sentinel that `bound` substitutes).
-/

namespace Mcplates

open scoped Classical

/-- Degrees-to-radians factor, `d2r = np.pi/180.` from the source. -/
noncomputable def d2r : ℝ := Real.pi / 180

/-- Radians-to-degrees factor, `r2d = 180./np.pi` from the source. -/
noncomputable def r2d : ℝ := 180 / Real.pi

/-- Threshold `eps = 1.e-6` from the source. -/
noncomputable def eps : ℝ := 1e-6

/-- A 3-component numpy vector. -/
structure Vec3 where
  x : ℝ
  y : ℝ
  z : ℝ

/-- A 3x3 numpy matrix, row-major entries. -/
structure Mat3 where
  m00 : ℝ
  m01 : ℝ
  m02 : ℝ
  m10 : ℝ
  m11 : ℝ
  m12 : ℝ
  m20 : ℝ
  m21 : ℝ
  m22 : ℝ

/-- Matrix product `np.dot(A, B)` for 3x3 matrices, written out. -/
def mat3Mul (A B : Mat3) : Mat3 :=
  ⟨A.m00 * B.m00 + A.m01 * B.m10 + A.m02 * B.m20,
   A.m00 * B.m01 + A.m01 * B.m11 + A.m02 * B.m21,
   A.m00 * B.m02 + A.m01 * B.m12 + A.m02 * B.m22,
   A.m10 * B.m00 + A.m11 * B.m10 + A.m12 * B.m20,
   A.m10 * B.m01 + A.m11 * B.m11 + A.m12 * B.m21,
   A.m10 * B.m02 + A.m11 * B.m12 + A.m12 * B.m22,
   A.m20 * B.m00 + A.m21 * B.m10 + A.m22 * B.m20,
   A.m20 * B.m01 + A.m21 * B.m11 + A.m22 * B.m21,
   A.m20 * B.m02 + A.m21 * B.m12 + A.m22 * B.m22⟩

/-- Matrix-vector product `np.dot(A, v)` for a 3x3 matrix and a 3-vector. -/
def mat3Vec (A : Mat3) (v : Vec3) : Vec3 :=
  ⟨A.m00 * v.x + A.m01 * v.y + A.m02 * v.z,
   A.m10 * v.x + A.m11 * v.y + A.m12 * v.z,
   A.m20 * v.x + A.m21 * v.y + A.m22 * v.z⟩

/-- Dot product `np.dot(s, s)`-style for 3-vectors. -/
def dot3 (u v : Vec3) : ℝ := u.x * v.x + u.y * v.y + u.z * v.z

/-- Euclidean norm of a 3-vector, `np.sqrt(np.dot(s, s))`. -/
noncomputable def norm3 (s : Vec3) : ℝ := Real.sqrt (dot3 s s)

/-- Model of `np.arctan2 y x`: the argument of the complex number x + y i,
with range (-π, π] and `atan2 0 0 = 0`, matching numpy's convention. -/
noncomputable def atan2 (y x : ℝ) : ℝ := Complex.arg ⟨x, y⟩

/-- Source `construct_euler_rotation_matrix(alpha, beta, gamma)`:
builds `rot_gamma . (rot_beta . rot_alpha)` from the three inline
matrices of the source (angles in radians). -/
noncomputable def construct_euler_rotation_matrix (alpha beta gamma : ℝ) : Mat3 :=
  let rot_alpha : Mat3 :=
    ⟨Real.cos alpha, -Real.sin alpha, 0,
     Real.sin alpha, Real.cos alpha, 0,
     0, 0, 1⟩
  let rot_beta : Mat3 :=
    ⟨Real.cos beta, 0, Real.sin beta,
     0, 1, 0,
     -Real.sin beta, 0, Real.cos beta⟩
  let rot_gamma : Mat3 :=
    ⟨Real.cos gamma, -Real.sin gamma, 0,
     Real.sin gamma, Real.cos gamma, 0,
     0, 0, 1⟩
  mat3Mul rot_gamma (mat3Mul rot_beta rot_alpha)

/-- Standard rotation matrix about the z axis (spec side, for comparison). -/
noncomputable def rotZ (t : ℝ) : Mat3 :=
  ⟨Real.cos t, -Real.sin t, 0,
   Real.sin t, Real.cos t, 0,
   0, 0, 1⟩

/-- Standard rotation matrix about the y axis (spec side, for comparison). -/
noncomputable def rotY (t : ℝ) : Mat3 :=
  ⟨Real.cos t, 0, Real.sin t,
   0, 1, 0,
   -Real.sin t, 0, Real.cos t⟩

/-- Unit Cartesian vector from (longitude, colatitude) in radians:
`(sin(colat)*cos(lon), sin(colat)*sin(lon), cos(colat))`, the formula used
both in `__init__` (for `mu`) and in `logp` (for `point`). -/
noncomputable def cartOfRad (lonr colatr : ℝ) : Vec3 :=
  ⟨Real.sin colatr * Real.cos lonr,
   Real.sin colatr * Real.sin lonr,
   Real.cos colatr⟩

/-- Unit Cartesian vector from (longitude, colatitude) in degrees. -/
noncomputable def cartOfDeg (lon colat : ℝ) : Vec3 := cartOfRad (lon * d2r) (colat * d2r)

/-- The VonMisesFisher distribution state stored by `__init__`:
the raw mean angles (degrees) and the concentration kappa. -/
structure VonMisesFisher where
  lon_colat : ℝ × ℝ
  kappa : ℝ

/-- Model of the symbolic comparison node returned by `theano.tensor.ge`:
it records the operands but is just a graph object; no numeric comparison
is performed when it is built. -/
structure TensorCmp where
  lhs : ℝ
  rhs : ℝ

/-- Model of `theano.tensor.ge(a, b)`: builds a symbolic comparison node. -/
def tensor_ge (a b : ℝ) : TensorCmp := ⟨a, b⟩

/-- Python truthiness of the symbolic node object, as tested by
`assert(theano.tensor.ge(kappa, 0.))` in `__init__`: the assert truth-tests
the graph object itself, not the numeric comparison, so it does not depend
on the operand values. -/
def TensorCmp.pyTruthy (_ : TensorCmp) : Bool := true

/-- Model of `VonMisesFisher.__init__`: runs the
`assert(theano.tensor.ge(kappa, 0.))` check (an `AssertionError`, i.e.
construction failure, is `none`) and otherwise stores the parameters. -/
def VonMisesFisher.make (lon_colat : ℝ × ℝ) (kappa : ℝ) : Option VonMisesFisher :=
  if (tensor_ge kappa 0).pyTruthy then some ⟨lon_colat, kappa⟩ else none

/-- The stored mean direction `self.mu` built in `__init__` from
`lon = lon_colat[0]*d2r`, `colat = lon_colat[1]*d2r`. -/
noncomputable def VonMisesFisher.mu (d : VonMisesFisher) : Vec3 :=
  cartOfRad (d.lon_colat.1 * d2r) (d.lon_colat.2 * d2r)

/-- The per-input value of the `theano.tensor.switch` in `logp` (before the
`bound` masking): operands in radians.  `expm1 t` is written `exp t - 1`. -/
noncomputable def logpFormula (kappa : ℝ) (mu : Vec3) (lonr colatr : ℝ) : ℝ :=
  if eps ≤ kappa then
    Real.log (-kappa / (2 * Real.pi * (Real.exp (-2 * kappa) - 1))) +
      kappa * (dot3 (cartOfRad lonr colatr) mu - 1)
  else
    Real.log (1 / 4 / Real.pi)

/-- Model of `VonMisesFisher.logp` on a batch of (longitude, colatitude)
pairs in degrees.  The source reshapes the input to [n, 2], converts each
pair to a unit vector, applies the switch formula, and wraps the whole
thing in `bound(values, tt.all(colat_r >= 0), tt.all(colat_r <= pi))`.
Because the two conditions are whole-batch `tt.all` reductions (scalars),
`bound`'s switch replaces the entire batch by the `-inf` sentinel when the
conjunction fails; `none` stands for that sentinel. -/
noncomputable def VonMisesFisher.logp (d : VonMisesFisher) (inputs : List (ℝ × ℝ)) :
    List (Option ℝ) :=
  if (∀ p ∈ inputs, 0 ≤ p.2 * d2r) ∧ (∀ p ∈ inputs, p.2 * d2r ≤ Real.pi) then
    inputs.map fun p => some (logpFormula d.kappa d.mu (p.1 * d2r) (p.2 * d2r))
  else
    inputs.map fun _ => (none : Option ℝ)

/-- Source z-coordinate in `cartesian_sample_generator` for one uniform
draw `u = zeta`: `2.*zeta-1.` when `kappa < eps`, else
`1. + 1./kappa * np.log(zeta + (1.-zeta)*np.exp(-2.*kappa))`. -/
noncomputable def gen_z (kappa u : ℝ) : ℝ :=
  if kappa < eps then 2 * u - 1
  else 1 + 1 / kappa * Real.log (u + (1 - u) * Real.exp (-2 * kappa))

/-- Source x-coordinate `np.sqrt(1.-z*z)*np.cos(phi)`. -/
noncomputable def gen_x (kappa u phi : ℝ) : ℝ :=
  Real.sqrt (1 - gen_z kappa u * gen_z kappa u) * Real.cos phi

/-- Source y-coordinate `np.sqrt(1.-z*z)*np.sin(phi)`. -/
noncomputable def gen_y (kappa u phi : ℝ) : ℝ :=
  Real.sqrt (1 - gen_z kappa u * gen_z kappa u) * Real.sin phi

/-- One pre-rotation sample (one column of `np.vstack([x, y, z])`). -/
noncomputable def unrotatedSample (kappa u phi : ℝ) : Vec3 :=
  ⟨gen_x kappa u phi, gen_y kappa u phi, gen_z kappa u⟩

/-- One rotated Cartesian sample of `random`: the Euler matrix is built
from the mean as `construct_euler_rotation_matrix(0., colat*d2r, lon*d2r)`
and applied to the pre-rotation sample. -/
noncomputable def cartesianSample (lon_colat : ℝ × ℝ) (kappa u phi : ℝ) : Vec3 :=
  mat3Vec (construct_euler_rotation_matrix 0 (lon_colat.2 * d2r) (lon_colat.1 * d2r))
    (unrotatedSample kappa u phi)

/-- Source colatitude conversion `np.arccos(s[2]/np.sqrt(np.dot(s, s)))`. -/
noncomputable def colatOfCart (s : Vec3) : ℝ := Real.arccos (s.z / norm3 s)

/-- Source longitude conversion `np.arctan2(s[1], s[0])`. -/
noncomputable def lonOfCart (s : Vec3) : ℝ := atan2 s.y s.x

/-- One returned (longitude, colatitude) pair of `random`, in degrees
(the final `* r2d` of line 95). -/
noncomputable def samplePair (lon_colat : ℝ × ℝ) (kappa u phi : ℝ) : ℝ × ℝ :=
  (lonOfCart (cartesianSample lon_colat kappa u phi) * r2d,
   colatOfCart (cartesianSample lon_colat kappa u phi) * r2d)

/-- Model of `VonMisesFisher.random(point, size)` with the randomness made
explicit: `u i` and `phi i` are the i-th uniform draws.  The conversions
run through `np.fromiter(..., count=size)`; when `size` is `None`,
`count=None` raises a `TypeError` (numpy requires an integer), modelled as
`none`.  For `size = n` the result is the list of n (lon, colat) pairs. -/
noncomputable def random (lon_colat : ℝ × ℝ) (kappa : ℝ) (u phi : ℕ → ℝ)
    (size : Option ℕ) : Option (List (ℝ × ℝ)) :=
  match size with
  | none => none
  | some n => some ((List.range n).map fun i => samplePair lon_colat kappa (u i) (phi i))

/-! Spec-side definitions, written from the claims' own words, to be
compared with the source-side definitions above. -/

/-- Spec formula for the z-draw (claim wording): if kappa < 1e-6 then
`2·u − 1` else `1 + (1/kappa)·ln(u + (1−u)·exp(−2·kappa))`. -/
noncomputable def specZ (kappa u : ℝ) : ℝ :=
  if kappa < 1e-6 then 2 * u - 1
  else 1 + 1 / kappa * Real.log (u + (1 - u) * Real.exp (-(2 * kappa)))

/-- Spec log-density value (claim wording) at a (lon, colat) pair in
degrees: if kappa ≥ 1e-6 then
`log(-kappa / (2π·(exp(-2·kappa) - 1))) + kappa·(dot - 1)` with `dot` the
dot product of the input's unit Cartesian vector with the mean unit
vector; else the constant `log(1/(4π))`. -/
noncomputable def specLogpValue (kappa : ℝ) (mu : Vec3) (p : ℝ × ℝ) : ℝ :=
  if 1e-6 ≤ kappa then
    Real.log (-kappa / (2 * Real.pi * (Real.exp (-(2 * kappa)) - 1))) +
      kappa * (dot3 (cartOfDeg p.1 p.2) mu - 1)
  else
    Real.log (1 / (4 * Real.pi))

/-- Concrete distribution instance: mean direction (lon=0°, colat=90°),
i.e. mean vector (1,0,0), and kappa = 0 (the spec's concrete scenario). -/
def vmfUnif : VonMisesFisher := ⟨(0, 90), 0⟩

/-! Helper lemmas. -/

theorem d2r_pos : 0 < d2r := by
  unfold d2r
  positivity

theorem deg180_mul_d2r : (180 : ℝ) * d2r = Real.pi := by
  unfold d2r
  field_simp

theorem mul_r2d_mul_d2r (t : ℝ) : t * r2d * d2r = t := by
  unfold r2d d2r
  field_simp

theorem eps_pos : 0 < eps := by
  unfold eps
  norm_num

theorem dot3_cartOfRad_self (lonr colatr : ℝ) :
    dot3 (cartOfRad lonr colatr) (cartOfRad lonr colatr) = 1 := by
  unfold dot3 cartOfRad
  simp only
  nlinarith [Real.sin_sq_add_cos_sq lonr, Real.sin_sq_add_cos_sq colatr]

theorem mat3Vec_mat3Mul (A B : Mat3) (v : Vec3) :
    mat3Vec (mat3Mul A B) v = mat3Vec A (mat3Vec B v) := by
  unfold mat3Vec mat3Mul
  simp only [Vec3.mk.injEq]
  refine ⟨by ring, by ring, by ring⟩

theorem dot3_rotZ_invariant (t : ℝ) (v : Vec3) :
    dot3 (mat3Vec (rotZ t) v) (mat3Vec (rotZ t) v) = dot3 v v := by
  unfold dot3 mat3Vec rotZ
  simp only
  nlinarith [Real.sin_sq_add_cos_sq t]

theorem dot3_rotY_invariant (t : ℝ) (v : Vec3) :
    dot3 (mat3Vec (rotY t) v) (mat3Vec (rotY t) v) = dot3 v v := by
  unfold dot3 mat3Vec rotY
  simp only
  nlinarith [Real.sin_sq_add_cos_sq t]

/-! The claim theorems. -/

/-- C6: for all real angles alpha, beta, gamma in radians,
`construct_euler_rotation_matrix` returns the 3x3 matrix equal to the
product Rz(gamma) · Ry(beta) · Rz(alpha) of the standard rotation matrices
about the z and y axes; as a Lean function it is total, hence well-defined
for all real inputs, and it is pure. -/
theorem construct_euler_rotation_matrix_eq_zyz (alpha beta gamma : ℝ) :
    construct_euler_rotation_matrix alpha beta gamma =
      mat3Mul (rotZ gamma) (mat3Mul (rotY beta) (rotZ alpha)) := rfl

/-- C2: in the sample generator, the z-coordinate equals `2·u − 1` when
kappa < 1e-6 and `1 + (1/kappa)·ln(u + (1−u)·exp(−2·kappa))` otherwise,
and the pre-rotation x and y coordinates equal `sqrt(1−z²)·cos(phi)` and
`sqrt(1−z²)·sin(phi)`, as the spec states. -/
theorem sample_generator_matches_spec (kappa u phi : ℝ) :
    gen_z kappa u = specZ kappa u ∧
    gen_x kappa u phi = Real.sqrt (1 - specZ kappa u ^ 2) * Real.cos phi ∧
    gen_y kappa u phi = Real.sqrt (1 - specZ kappa u ^ 2) * Real.sin phi := by
  have hz : gen_z kappa u = specZ kappa u := by
    simp only [gen_z, specZ, eps, neg_mul]
  refine ⟨hz, ?_, ?_⟩
  · rw [gen_x, hz, pow_two]
  · rw [gen_y, hz, pow_two]

/-- C4 (code bug evaluated at the failing input kappa = -1): the
construction-time check `assert(theano.tensor.ge(kappa, 0.))` truth-tests
the symbolic comparison object, which is always truthy, so construction
silently accepts a negative kappa instead of failing. -/
theorem make_accepts_negative_kappa :
    VonMisesFisher.make (0, 90) (-1) = some ⟨(0, 90), -1⟩ := rfl

/-- C5 (code bug evaluated at the failing input size = None): `random`
with a positive integer size n returns n (longitude, colatitude) pairs
(shape [n, 2]), but with size unset the `np.fromiter(..., count=None)`
calls fail with a TypeError (modelled as `none`) instead of returning a
single pair. -/
theorem random_shape_and_none_size :
    (random (0, 0) 1 (fun _ => 1 / 2) (fun _ => 0) (some 3)).map List.length =
      some 3 ∧
    random (0, 0) 1 (fun _ => 1 / 2) (fun _ => 0) none = none := by
  constructor
  · simp [random]
  · rfl

theorem logpFormula_eq_spec (kappa : ℝ) (mu : Vec3) (p : ℝ × ℝ) :
    logpFormula kappa mu (p.1 * d2r) (p.2 * d2r) = specLogpValue kappa mu p := by
  unfold logpFormula specLogpValue eps cartOfDeg
  split_ifs with h1
  · rw [neg_mul]
  · rw [div_div]

theorem logp_support_cond_of_colat (inputs : List (ℝ × ℝ))
    (h : ∀ p ∈ inputs, 0 ≤ p.2 ∧ p.2 ≤ 180) :
    (∀ p ∈ inputs, 0 ≤ p.2 * d2r) ∧ (∀ p ∈ inputs, p.2 * d2r ≤ Real.pi) := by
  constructor
  · intro p hp
    exact mul_nonneg (h p hp).1 d2r_pos.le
  · intro p hp
    calc p.2 * d2r ≤ 180 * d2r := by
          exact mul_le_mul_of_nonneg_right (h p hp).2 d2r_pos.le
    _ = Real.pi := deg180_mul_d2r

/-- C1: on any input batch of (longitude, colatitude) pairs in degrees
whose colatitudes all lie in [0°, 180°], `logp` returns per pair the
two-branch closed form of the spec: for kappa ≥ 1e-6 the value
`log(-kappa / (2π·(exp(-2·kappa) - 1))) + kappa·(dot - 1)` with `dot` the
dot product of the input's unit Cartesian vector with the stored mean unit
vector, and for kappa < 1e-6 the constant `log(1/(4π))`, independent of
the input direction. -/
theorem logp_closed_form_on_support (d : VonMisesFisher) (inputs : List (ℝ × ℝ))
    (h : ∀ p ∈ inputs, 0 ≤ p.2 ∧ p.2 ≤ 180) :
    d.logp inputs = inputs.map fun p => some (specLogpValue d.kappa d.mu p) := by
  unfold VonMisesFisher.logp
  rw [if_pos (logp_support_cond_of_colat inputs h)]
  exact List.map_congr_left fun p _ =>
    congrArg some (logpFormula_eq_spec d.kappa d.mu p)

/-- Witness for C1 at the concrete scenario: kappa = 0, mean (0°, 90°),
one in-support input (10°, 45°). -/
theorem logp_closed_form_on_support_witness :
    (∀ p ∈ [((10 : ℝ), (45 : ℝ))], 0 ≤ p.2 ∧ p.2 ≤ 180) ∧
    vmfUnif.logp [((10 : ℝ), (45 : ℝ))] =
      [((10 : ℝ), (45 : ℝ))].map fun p =>
        some (specLogpValue vmfUnif.kappa vmfUnif.mu p) := by
  have h : ∀ p ∈ [((10 : ℝ), (45 : ℝ))], 0 ≤ p.2 ∧ p.2 ≤ 180 := by
    intro p hp
    simp only [List.mem_singleton] at hp
    subst hp
    norm_num
  exact ⟨h, logp_closed_form_on_support vmfUnif _ h⟩

/-- C3 counterexample: a batch with one in-support pair (0°, 90°) and one
out-of-support pair (0°, 190°).  The claim says the in-support pair still
yields its finite closed-form value, but the whole-batch `tt.all`
conditions make `bound` mask BOTH entries to the -inf sentinel (`none`). -/
theorem logp_mask_not_per_input :
    vmfUnif.logp [((0 : ℝ), (90 : ℝ)), ((0 : ℝ), (190 : ℝ))] = [none, none] := by
  unfold VonMisesFisher.logp
  rw [if_neg]
  · rfl
  · rintro ⟨-, hpi⟩
    have h := hpi ((0 : ℝ), (190 : ℝ)) (by simp)
    simp only at h
    rw [show (190 : ℝ) * d2r = 190 * (Real.pi / 180) from rfl] at h
    nlinarith [Real.pi_pos]

/-- C3 amended: the masking is whole-batch, not per-input.  If every
colatitude of the batch lies in [0°, 180°], every entry is its finite
closed-form value; if any colatitude lies outside [0°, 180°], every entry
of the batch (in-support pairs included) is the -inf sentinel. -/
theorem logp_whole_batch_masking (d : VonMisesFisher) (inputs : List (ℝ × ℝ)) :
    ((∀ p ∈ inputs, 0 ≤ p.2 ∧ p.2 ≤ 180) →
      d.logp inputs =
        inputs.map fun p => some (logpFormula d.kappa d.mu (p.1 * d2r) (p.2 * d2r))) ∧
    ((∃ p ∈ inputs, p.2 < 0 ∨ 180 < p.2) →
      d.logp inputs = inputs.map fun _ => none) := by
  constructor
  · intro h
    unfold VonMisesFisher.logp
    rw [if_pos (logp_support_cond_of_colat inputs h)]
  · rintro ⟨p, hp, hcolat⟩
    unfold VonMisesFisher.logp
    rw [if_neg]
    rintro ⟨h0, hpi⟩
    rcases hcolat with hneg | hbig
    · have := h0 p hp
      nlinarith [d2r_pos]
    · have := hpi p hp
      have h180 := deg180_mul_d2r
      nlinarith [d2r_pos]

/-- Witness for C3's amended statement: a fully in-support batch keeps its
closed-form value and a batch holding the out-of-support pair (0°, 190°)
is masked entirely. -/
theorem logp_whole_batch_masking_witness :
    vmfUnif.logp [((0 : ℝ), (90 : ℝ))] =
      [some (logpFormula vmfUnif.kappa vmfUnif.mu (0 * d2r) (90 * d2r))] ∧
    vmfUnif.logp [((0 : ℝ), (190 : ℝ))] = [none] := by
  constructor
  · have h : ∀ p ∈ [((0 : ℝ), (90 : ℝ))], 0 ≤ p.2 ∧ p.2 ≤ 180 := by
      intro p hp
      simp only [List.mem_singleton] at hp
      subst hp
      norm_num
    simpa using (logp_whole_batch_masking vmfUnif _).1 h
  · have h : ∃ p ∈ [((0 : ℝ), (190 : ℝ))], p.2 < 0 ∨ 180 < p.2 := by
      refine ⟨((0 : ℝ), (190 : ℝ)), by simp, ?_⟩
      norm_num
    simpa using (logp_whole_batch_masking vmfUnif _).2 h

/-- C9: for every stored mean, `mu` as built in `__init__` is a unit
vector (its squared components sum to exactly 1), and for every unit input
vector the dot product with `mu` lies in [-1, 1]. -/
theorem mu_unit_and_dot_bounded (d : VonMisesFisher) :
    dot3 d.mu d.mu = 1 ∧
    ∀ p : Vec3, dot3 p p = 1 → -1 ≤ dot3 p d.mu ∧ dot3 p d.mu ≤ 1 := by
  have hmu : dot3 d.mu d.mu = 1 := dot3_cartOfRad_self _ _
  refine ⟨hmu, fun p hp => ?_⟩
  unfold dot3 at hp hmu ⊢
  constructor
  · nlinarith [sq_nonneg (p.x + d.mu.x), sq_nonneg (p.y + d.mu.y),
      sq_nonneg (p.z + d.mu.z)]
  · nlinarith [sq_nonneg (p.x - d.mu.x), sq_nonneg (p.y - d.mu.y),
      sq_nonneg (p.z - d.mu.z)]

/-- Witness for C9 at the concrete mean (0°, 90°) and the concrete unit
input (1, 0, 0). -/
theorem mu_unit_and_dot_bounded_witness :
    dot3 vmfUnif.mu vmfUnif.mu = 1 ∧
    dot3 ⟨1, 0, 0⟩ (⟨1, 0, 0⟩ : Vec3) = 1 ∧
    -1 ≤ dot3 ⟨1, 0, 0⟩ vmfUnif.mu ∧ dot3 ⟨1, 0, 0⟩ vmfUnif.mu ≤ 1 := by
  have h := mu_unit_and_dot_bounded vmfUnif
  have hp : dot3 ⟨1, 0, 0⟩ (⟨1, 0, 0⟩ : Vec3) = 1 := by
    unfold dot3
    norm_num
  exact ⟨h.1, hp, (h.2 _ hp).1, (h.2 _ hp).2⟩

theorem gen_z_bounds (kappa u : ℝ) (hu0 : 0 < u) (hu1 : u < 1) :
    -1 ≤ gen_z kappa u ∧ gen_z kappa u ≤ 1 := by
  unfold gen_z
  split_ifs with h
  · constructor <;> linarith
  · push_neg at h
    have hk0 : 0 < kappa := lt_of_lt_of_le eps_pos h
    have hepos : 0 < Real.exp (-2 * kappa) := Real.exp_pos _
    have he1 : Real.exp (-2 * kappa) < 1 := by
      rw [Real.exp_lt_one_iff]
      nlinarith
    set a := u + (1 - u) * Real.exp (-2 * kappa) with ha
    have ha_pos : 0 < a := by nlinarith
    have ha_le1 : a ≤ 1 := by nlinarith
    have ha_ge : Real.exp (-2 * kappa) ≤ a := by nlinarith
    have hlog_le : Real.log a ≤ 0 := Real.log_nonpos ha_pos.le ha_le1
    have hlog_ge : -2 * kappa ≤ Real.log a := by
      rw [Real.le_log_iff_exp_le ha_pos]
      exact ha_ge
    constructor
    · have hmul : 1 / kappa * (-2 * kappa) ≤ 1 / kappa * Real.log a :=
        mul_le_mul_of_nonneg_left hlog_ge (by positivity)
      have heq : 1 / kappa * (-2 * kappa) = -2 := by field_simp
      linarith
    · have hmul : 1 / kappa * Real.log a ≤ 1 / kappa * 0 :=
        mul_le_mul_of_nonneg_left hlog_le (by positivity)
      simp only [mul_zero] at hmul
      linarith

theorem unrotated_dot (kappa u phi : ℝ) (hu0 : 0 < u) (hu1 : u < 1) :
    dot3 (unrotatedSample kappa u phi) (unrotatedSample kappa u phi) = 1 := by
  obtain ⟨hz1, hz2⟩ := gen_z_bounds kappa u hu0 hu1
  have h1z : 0 ≤ 1 - gen_z kappa u * gen_z kappa u := by nlinarith
  have hs : Real.sqrt (1 - gen_z kappa u * gen_z kappa u) ^ 2 =
      1 - gen_z kappa u * gen_z kappa u := Real.sq_sqrt h1z
  unfold dot3 unrotatedSample gen_x gen_y
  simp only
  nlinarith [Real.sin_sq_add_cos_sq phi, hs]

/-- C7: for 0 < u < 1 and kappa ≥ 0, the generated z lies in [-1, 1], the
pre-rotation vector (x, y, z) is a unit vector, the Euler-rotated
Cartesian sample is still a unit vector, and converting the returned
(lon, colat) pair back to Cartesian yields a unit vector. -/
theorem samples_on_unit_sphere (lon_colat : ℝ × ℝ) (kappa u phi : ℝ)
    (hu0 : 0 < u) (hu1 : u < 1) (hk : 0 ≤ kappa) :
    (-1 ≤ gen_z kappa u ∧ gen_z kappa u ≤ 1) ∧
    dot3 (unrotatedSample kappa u phi) (unrotatedSample kappa u phi) = 1 ∧
    dot3 (cartesianSample lon_colat kappa u phi)
      (cartesianSample lon_colat kappa u phi) = 1 ∧
    dot3 (cartOfDeg (samplePair lon_colat kappa u phi).1
        (samplePair lon_colat kappa u phi).2)
      (cartOfDeg (samplePair lon_colat kappa u phi).1
        (samplePair lon_colat kappa u phi).2) = 1 := by
  have _hk := hk
  refine ⟨gen_z_bounds kappa u hu0 hu1, unrotated_dot kappa u phi hu0 hu1, ?_, ?_⟩
  · unfold cartesianSample
    rw [show construct_euler_rotation_matrix 0 (lon_colat.2 * d2r) (lon_colat.1 * d2r) =
        mat3Mul (rotZ (lon_colat.1 * d2r))
          (mat3Mul (rotY (lon_colat.2 * d2r)) (rotZ 0)) from rfl]
    rw [mat3Vec_mat3Mul, mat3Vec_mat3Mul, dot3_rotZ_invariant, dot3_rotY_invariant,
      dot3_rotZ_invariant]
    exact unrotated_dot kappa u phi hu0 hu1
  · unfold cartOfDeg
    exact dot3_cartOfRad_self _ _

/-- Witness for C7 at mean (0°, 90°), kappa = 0, u = 1/2, phi = 0. -/
theorem samples_on_unit_sphere_witness :
    (0 : ℝ) < 1 / 2 ∧ (1 / 2 : ℝ) < 1 ∧ (0 : ℝ) ≤ 0 ∧
    ((-1 ≤ gen_z 0 (1 / 2) ∧ gen_z 0 (1 / 2) ≤ 1) ∧
      dot3 (unrotatedSample 0 (1 / 2) 0) (unrotatedSample 0 (1 / 2) 0) = 1 ∧
      dot3 (cartesianSample (0, 90) 0 (1 / 2) 0)
        (cartesianSample (0, 90) 0 (1 / 2) 0) = 1 ∧
      dot3 (cartOfDeg (samplePair (0, 90) 0 (1 / 2) 0).1
          (samplePair (0, 90) 0 (1 / 2) 0).2)
        (cartOfDeg (samplePair (0, 90) 0 (1 / 2) 0).1
          (samplePair (0, 90) 0 (1 / 2) 0).2) = 1) :=
  ⟨by norm_num, by norm_num, le_refl 0,
    samples_on_unit_sphere (0, 90) 0 (1 / 2) 0 (by norm_num) (by norm_num) (le_refl 0)⟩

/-- C8: for every unit Cartesian vector, converting to (longitude,
colatitude) in degrees with the code's conversion (colatitude
arccos(z/|v|), longitude atan2(y, x), both scaled by 180/π) and back to
Cartesian with the code's formula reproduces the original vector.  This
covers in particular all vectors with colatitude in [0°, 180°] and
longitude in [0°, 360°). -/
theorem cart_angular_round_trip (v : Vec3) (hv : dot3 v v = 1) :
    cartOfDeg (lonOfCart v * r2d) (colatOfCart v * r2d) = v := by
  obtain ⟨x, y, z⟩ := v
  unfold dot3 at hv
  simp only at hv
  have hz1 : -1 ≤ z := by nlinarith
  have hz2 : z ≤ 1 := by nlinarith
  have hnorm : norm3 ⟨x, y, z⟩ = 1 := by
    unfold norm3 dot3
    simp only
    rw [hv, Real.sqrt_one]
  unfold cartOfDeg
  rw [mul_r2d_mul_d2r, mul_r2d_mul_d2r]
  unfold colatOfCart lonOfCart atan2 cartOfRad
  simp only
  rw [hnorm, div_one, Real.sin_arccos, Real.cos_arccos hz1 hz2]
  have hsqeq : 1 - z ^ 2 = x * x + y * y := by nlinarith
  by_cases hc : (⟨x, y⟩ : ℂ) = 0
  · have hx0 : x = 0 := by simpa using congrArg Complex.re hc
    have hy0 : y = 0 := by simpa using congrArg Complex.im hc
    rw [hc, Complex.arg_zero]
    simp only [Real.cos_zero, Real.sin_zero, mul_one, mul_zero, Vec3.mk.injEq]
    subst hx0
    subst hy0
    refine ⟨?_, rfl, trivial⟩
    rw [hsqeq, show (0 : ℝ) * 0 + 0 * 0 = 0 by ring, Real.sqrt_zero]
  · have habs : Complex.abs ⟨x, y⟩ = Real.sqrt (x * x + y * y) := by
      rw [Complex.abs_apply, Complex.normSq_mk]
    have habspos : 0 < Complex.abs ⟨x, y⟩ := Complex.abs.pos hc
    have hsqrt : Real.sqrt (1 - z ^ 2) = Complex.abs ⟨x, y⟩ := by
      rw [hsqeq, habs]
    rw [Complex.cos_arg hc, Complex.sin_arg]
    simp only [Vec3.mk.injEq]
    refine ⟨?_, ?_, trivial⟩
    · rw [hsqrt]
      show Complex.abs ⟨x, y⟩ * (x / Complex.abs ⟨x, y⟩) = x
      rw [mul_comm, div_mul_cancel₀ _ habspos.ne']
    · rw [hsqrt]
      show Complex.abs ⟨x, y⟩ * (y / Complex.abs ⟨x, y⟩) = y
      rw [mul_comm, div_mul_cancel₀ _ habspos.ne']

/-- Witness for C8 at the concrete unit vector (1, 0, 0). -/
theorem cart_angular_round_trip_witness :
    dot3 ⟨1, 0, 0⟩ (⟨1, 0, 0⟩ : Vec3) = 1 ∧
    cartOfDeg (lonOfCart ⟨1, 0, 0⟩ * r2d) (colatOfCart ⟨1, 0, 0⟩ * r2d) =
      (⟨1, 0, 0⟩ : Vec3) := by
  have hp : dot3 ⟨1, 0, 0⟩ (⟨1, 0, 0⟩ : Vec3) = 1 := by
    unfold dot3
    norm_num
  exact ⟨hp, cart_angular_round_trip _ hp⟩

/-- C10 amended: every longitude returned by `random`'s conversion lies in
(-180°, 180°] and every colatitude in [0°, 180°]; in particular longitudes
are never in the open interval (180°, 360°), though the boundary value
180° itself can be returned. -/
theorem sample_angle_ranges (lon_colat : ℝ × ℝ) (kappa u phi : ℝ) :
    -180 < (samplePair lon_colat kappa u phi).1 ∧
    (samplePair lon_colat kappa u phi).1 ≤ 180 ∧
    0 ≤ (samplePair lon_colat kappa u phi).2 ∧
    (samplePair lon_colat kappa u phi).2 ≤ 180 := by
  unfold samplePair lonOfCart colatOfCart atan2 r2d
  simp only
  have h1 := Complex.neg_pi_lt_arg
    (⟨(cartesianSample lon_colat kappa u phi).x,
      (cartesianSample lon_colat kappa u phi).y⟩ : ℂ)
  have h2 := Complex.arg_le_pi
    (⟨(cartesianSample lon_colat kappa u phi).x,
      (cartesianSample lon_colat kappa u phi).y⟩ : ℂ)
  have h3 := Real.arccos_nonneg
    ((cartesianSample lon_colat kappa u phi).z / norm3 (cartesianSample lon_colat kappa u phi))
  have h4 := Real.arccos_le_pi
    ((cartesianSample lon_colat kappa u phi).z / norm3 (cartesianSample lon_colat kappa u phi))
  have hrpos : (0 : ℝ) < 180 / Real.pi := by positivity
  have h180 : Real.pi * (180 / Real.pi) = 180 := by field_simp
  refine ⟨?_, ?_, ?_, ?_⟩
  · nlinarith [mul_lt_mul_of_pos_right h1 hrpos]
  · nlinarith [mul_le_mul_of_nonneg_right h2 hrpos.le]
  · exact mul_nonneg h3 hrpos.le
  · nlinarith [mul_le_mul_of_nonneg_right h4 hrpos.le]

/-- C10 counterexample: with mean (0°, 0°), kappa = 0, u = 1/2 and
phi = π, the Cartesian sample is (-1, 0, 0) and the returned longitude is
atan2(0, -1)·180/π = 180°, which lies in the claim's excluded range
[180°, 360°). -/
theorem sample_lon_180_example :
    (samplePair (0, 0) 0 (1 / 2) Real.pi).1 = 180 ∧
    (samplePair (0, 0) 0 (1 / 2) Real.pi).1 ∈ Set.Ico (180 : ℝ) 360 := by
  have hz : gen_z 0 (1 / 2) = 0 := by
    unfold gen_z
    rw [if_pos eps_pos]
    norm_num
  have hx : gen_x 0 (1 / 2) Real.pi = -1 := by
    unfold gen_x
    rw [hz]
    norm_num [Real.cos_pi, Real.sqrt_one]
  have hy : gen_y 0 (1 / 2) Real.pi = 0 := by
    unfold gen_y
    rw [hz]
    norm_num [Real.sin_pi]
  have hcart : cartesianSample (0, 0) 0 (1 / 2) Real.pi = ⟨-1, 0, 0⟩ := by
    unfold cartesianSample unrotatedSample
    rw [hx, hy, hz]
    norm_num [construct_euler_rotation_matrix, mat3Mul, mat3Vec, zero_mul,
      Real.cos_zero, Real.sin_zero, Vec3.mk.injEq]
  have hlon : lonOfCart ⟨-1, 0, 0⟩ = Real.pi := by
    unfold lonOfCart atan2
    have hm : (⟨(-1 : ℝ), (0 : ℝ)⟩ : ℂ) = -1 := by
      apply Complex.ext <;> norm_num
    simp only
    rw [hm, Complex.arg_neg_one]
  have h180 : Real.pi * r2d = 180 := by
    unfold r2d
    field_simp
  have hfin : (samplePair (0, 0) 0 (1 / 2) Real.pi).1 = 180 := by
    unfold samplePair
    simp only
    rw [hcart, hlon, h180]
  refine ⟨hfin, ?_⟩
  rw [hfin, Set.mem_Ico]
  norm_num

end Mcplates
